import Mathlib

/-!
Verification of the SVGIZE greedy image-approximation program.

The definitions below are a shallow embedding of `src/main.rs`.  Floating
point expressions of the source are modelled over exact arithmetic (`ℚ` or
`ℝ`); machine integers are modelled as `Nat` (all quantities involved stay
far below the `u32` range except where noted).  The stochastic environment
(random draws, the external perceptual scorer) is modelled as explicit
inputs/oracles, so every property is stated for all possible draws.
-/

/-- Lines 135-138 of `main.rs`: the candidate edge length is the minimum of
four uniform draws over `[0, max(w, h))`, incremented to `1` when it is `0`. -/
def rand_size (d0 d1 d2 d3 : Nat) : Nat :=
  if min (min (min d0 d1) d2) d3 < 1 then min (min (min d0 d1) d2) d3 + 1
  else min (min (min d0 d1) d2) d3

/-- Line 139 of `main.rs`: `(size*size*2.0).sqrt().ceil() as u32` under exact
real-arithmetic semantics, i.e. the ceiling of the square root of `2·s²`,
computed here through `Nat.sqrt`. -/
def size_rotated_pre (s : Nat) : Nat :=
  if Nat.sqrt (2 * s * s) * Nat.sqrt (2 * s * s) = 2 * s * s then Nat.sqrt (2 * s * s)
  else Nat.sqrt (2 * s * s) + 1

/-- Lines 139-142 of `main.rs`: the rotated-buffer edge, parity-corrected so
that it matches the parity of `s`. -/
def size_rotated (s : Nat) : Nat :=
  if size_rotated_pre s % 2 ≠ s % 2 then size_rotated_pre s + 1
  else size_rotated_pre s

/-- Line 146 of `main.rs`: the centering offset
`floor(size_rotated/2) - floor(size/2)`, an unsigned (truncated) subtraction. -/
def paste_offset (s : Nat) : Nat :=
  size_rotated s / 2 - s / 2

lemma one_le_rand_size (d0 d1 d2 d3 : Nat) : 1 ≤ rand_size d0 d1 d2 d3 := by
  unfold rand_size
  split <;> omega

lemma two_mul_sq_not_square {s r : Nat} (hs : 1 ≤ s) : r * r ≠ 2 * s * s := by
  intro h
  have hsR : (0 : ℝ) < (s : ℝ) := by exact_mod_cast hs
  have hcast : (r : ℝ) * (r : ℝ) = 2 * (s : ℝ) * (s : ℝ) := by exact_mod_cast h
  have hdiv : ((r : ℝ) / (s : ℝ)) ^ 2 = 2 := by
    field_simp
    nlinarith [hcast]
  have hsqrt : Real.sqrt 2 = (r : ℝ) / (s : ℝ) := by
    rw [← hdiv]
    exact Real.sqrt_sq (by positivity)
  exact irrational_sqrt_two ⟨(r : ℚ) / (s : ℚ), by rw [hsqrt]; push_cast; ring⟩

lemma sqrt_two_mul_cast (s : Nat) :
    Real.sqrt 2 * (s : ℝ) = Real.sqrt (2 * (s : Nat) * (s : Nat) : Nat) := by
  have h : ((2 * s * s : Nat) : ℝ) = 2 * ((s : ℝ) * (s : ℝ)) := by push_cast; ring
  rw [h, Real.sqrt_mul (by norm_num : (0 : ℝ) ≤ 2),
    Real.sqrt_mul_self (by positivity : (0 : ℝ) ≤ (s : ℝ))]

lemma size_rotated_pre_eq_ceil {s : Nat} (hs : 1 ≤ s) :
    size_rotated_pre s = ⌈Real.sqrt 2 * (s : ℝ)⌉₊ := by
  unfold size_rotated_pre
  have hne : ¬ (Nat.sqrt (2 * s * s) * Nat.sqrt (2 * s * s) = 2 * s * s) :=
    two_mul_sq_not_square hs
  rw [if_neg hne]
  symm
  rw [Nat.ceil_eq_iff (by omega), sqrt_two_mul_cast s]
  set r := Nat.sqrt (2 * s * s) with hr
  have hlow : r * r < 2 * s * s := lt_of_le_of_ne (Nat.sqrt_le _) hne
  have hhigh : 2 * s * s < (r + 1) * (r + 1) := Nat.lt_succ_sqrt _
  constructor
  · rw [show (r + 1 - 1 : Nat) = r from by omega, Real.lt_sqrt (by positivity)]
    have : ((r : ℝ)) ^ 2 = ((r * r : Nat) : ℝ) := by push_cast; ring
    rw [this]
    exact_mod_cast hlow
  · rw [Real.sqrt_le_left (by positivity)]
    have : (((r + 1) * (r + 1) : Nat) : ℝ) = ((r + 1 : Nat) : ℝ) ^ 2 := by push_cast; ring
    calc ((2 * s * s : Nat) : ℝ) ≤ (((r + 1) * (r + 1) : Nat) : ℝ) := by
          exact_mod_cast Nat.le_of_lt hhigh
      _ = ((r + 1 : Nat) : ℝ) ^ 2 := this

lemma size_rotated_pre_ge (s : Nat) : s ≤ size_rotated_pre s := by
  unfold size_rotated_pre
  have h : s ≤ Nat.sqrt (2 * s * s) := by
    rw [Nat.le_sqrt]
    nlinarith
  split <;> omega

lemma size_rotated_parity (s : Nat) : size_rotated s % 2 = s % 2 := by
  unfold size_rotated
  split <;> omega

lemma size_rotated_ge (s : Nat) : s ≤ size_rotated s := by
  have := size_rotated_pre_ge s
  unfold size_rotated
  split <;> omega

/-- Line 143 of `main.rs`: `rng.next_u32() as f32 / u32::MAX as f32 * (PI*2.0)`
under exact real-arithmetic semantics, for a 32-bit draw `u`. -/
noncomputable def rand_rot (u : Nat) : ℝ :=
  (u : ℝ) / 4294967295 * (2 * Real.pi)

/-- Line 83 of `main.rs`: the target score is the match percentage (0 when the
option is absent) divided by 100. -/
def target_score_of (matchscore : Option ℚ) : ℚ :=
  matchscore.getD 0 / 100

/-- Lines 90-93 of `main.rs`: the program prints a message and exits, before
any image is loaded, exactly when `target_score <= 0.0 && target_shapes <= 0`. -/
def startup_exits (matchscore : Option ℚ) (target_shapes : Nat) : Bool :=
  decide (target_score_of matchscore ≤ 0) && decide (target_shapes ≤ 0)

/-- Line 171 of `main.rs`: the initial score of the average-color canvas,
`(raw * 10000.0).floor() / 10000.0` — truncation to 4 decimal places. -/
def trunc_initial (raw : ℚ) : ℚ :=
  (⌊raw * 10000⌋ : ℚ) / 10000

/-- Line 186 of `main.rs`: a candidate score,
`(raw * 1000000.0).floor() / 1000000.0` — truncation to 6 decimal places. -/
def trunc_candidate (raw : ℚ) : ℚ :=
  (⌊raw * 1000000⌋ : ℚ) / 1000000

/-- Line 101 of `main.rs`: the comparison image dimensions after the
aspect-preserving downsample of the original `w × h` input to width
`cmpwidth`; the f32 expression `(cmpwidth/w*h) as u32` is modelled over ℚ
(the `as u32` cast truncates the non-negative value toward zero). -/
def comparison_dims (w h cmpwidth : Nat) : Nat × Nat :=
  (cmpwidth, (⌊(cmpwidth : ℚ) / (w : ℚ) * (h : ℚ)⌋).toNat)

/-- Line 216 of `main.rs`: the width/height declared in the emitted document
viewBox are `input_image.width()` and `input_image.height()`, which are the
dimensions of the downsampled comparison image (line 101), not of the
original input. -/
def svg_declared_dims (w h cmpwidth : Nat) : Nat × Nat :=
  comparison_dims w h cmpwidth

/-- One candidate of a round (lines 179-195 of `main.rs`).  The stamp raster
and overlay placement are abstracted into `overlayEffect`, the function the
commit step applies to the canvas (line 200 — the same `imageops::overlay`
call that was applied to the private clone during evaluation on line 185).
`score` is the quantized similarity of the candidate against the current
canvas (line 186) in millionths, i.e. `newscore * 10^6`, which is an integer
because `newscore` is truncated to 6 decimal places; it is also the exact
`max_by_key` key `(newscore * 1000000.0) as i32` of line 195.  `settings` is
the `ImageSetting` payload pushed into the history on commit (line 202). -/
structure Candidate (γ σ : Type) where
  overlayEffect : γ → γ
  score : Nat
  settings : σ

/-- The mutable state of the search loop (lines 171-177 of `main.rs`).
`curr` is `curr_score * 10^6` — exact, because the initial score (line 171)
is a multiple of `10^-4` and every committed score (line 186) a multiple of
`10^-6`. -/
structure LoopState (γ σ : Type) where
  canvas : γ
  curr : Nat
  success : Nat
  failure : Nat
  consec : Nat
  placed : List σ

/-- The configuration the loop guard reads (lines 83-84 and 178). -/
structure LoopConfig where
  targetScore : ℚ
  targetShapes : Nat
  failmax : Nat

/-- The current score as the rational the source compares (line 178). -/
def currScoreQ {γ σ : Type} (s : LoopState γ σ) : ℚ :=
  (s.curr : ℚ) / 1000000

/-- Line 178 of `main.rs`: the loop guard
`(curr_score < target_score || success < target_shapes) && consec_fails < failmax`. -/
def loopGuard {γ σ : Type} (cfg : LoopConfig) (s : LoopState γ σ) : Bool :=
  (decide (currScoreQ s < cfg.targetScore) || decide (s.success < cfg.targetShapes))
    && decide (s.consec < cfg.failmax)

/-- Rust `Iterator::max_by_key` on the candidate score: a left fold keeping
the current maximum and replacing it on ties, so the last maximal element
wins — `max_by_key` returns the last element on equal keys (line 195). -/
def maxByScoreLast {γ σ : Type} (l : List (Candidate γ σ)) : Option (Candidate γ σ) :=
  l.foldl
    (fun acc c =>
      match acc with
      | none => some c
      | some m => if m.score ≤ c.score then some c else some m)
    none

/-- Lines 182-195 of `main.rs`: keep only candidates whose score strictly
exceeds the current score (`newscore > curr_score`, line 188), then take the
`max_by_key` on the quantized score. -/
def bestImproving {γ σ : Type} (curr : Nat) (l : List (Candidate γ σ)) :
    Option (Candidate γ σ) :=
  maxByScoreLast (l.filter (fun c => curr < c.score))

/-- Lines 197-212 of `main.rs`: one round.  If some candidate improved, the
best one is committed: its stamp is overlaid on the real canvas, its score
becomes the current score, its settings are appended to the history, the
success counter increments, the consecutive-failure counter resets.
Otherwise the failure and consecutive-failure counters increment and
everything else is untouched. -/
def roundStep {γ σ : Type} (s : LoopState γ σ) (batch : List (Candidate γ σ)) :
    LoopState γ σ :=
  match bestImproving s.curr batch with
  | some c =>
      { canvas := c.overlayEffect s.canvas
        curr := c.score
        success := s.success + 1
        failure := s.failure
        consec := 0
        placed := s.placed ++ [c.settings] }
  | none =>
      { s with failure := s.failure + 1, consec := s.consec + 1 }

/-- The whole search loop (lines 178-213 of `main.rs`), fuel-indexed.  `env k`
is the batch of candidates generated in round `k`; each round increments
exactly one of `success` and `failure`, so `success + failure` is the round
index. -/
def runLoop {γ σ : Type} (cfg : LoopConfig) (env : Nat → List (Candidate γ σ)) :
    Nat → LoopState γ σ → LoopState γ σ
  | 0, s => s
  | fuel + 1, s =>
      if loopGuard cfg s then runLoop cfg env fuel (roundStep s (env (s.success + s.failure)))
      else s

/-- Termination measure for the loop: committed rounds raise `curr` (at most
`10^6` since scores lie in `[0,1]`) and failed rounds raise `consec` toward
`failmax`. -/
def loopMeasure {γ σ : Type} (cfg : LoopConfig) (s : LoopState γ σ) : Nat :=
  (1000001 - s.curr) * cfg.failmax + (cfg.failmax - s.consec)

lemma maxByScoreLast_foldl_mem {γ σ : Type} :
    ∀ (l : List (Candidate γ σ)) (acc : Option (Candidate γ σ)) (c : Candidate γ σ),
      l.foldl
        (fun acc c =>
          match acc with
          | none => some c
          | some m => if m.score ≤ c.score then some c else some m)
        acc = some c →
      acc = some c ∨ c ∈ l := by
  intro l
  induction l with
  | nil => intro acc c h; exact Or.inl h
  | cons x xs ih =>
      intro acc c h
      rw [List.foldl_cons] at h
      rcases ih _ c h with h1 | h1
      · cases acc with
        | none =>
            simp only [Option.some.injEq] at h1
            exact Or.inr (by rw [← h1]; exact List.mem_cons_self x xs)
        | some m =>
            by_cases hc : m.score ≤ x.score
            · simp only [hc, if_true, Option.some.injEq] at h1
              exact Or.inr (by rw [← h1]; exact List.mem_cons_self x xs)
            · simp only [hc, if_false] at h1
              exact Or.inl h1
      · exact Or.inr (List.mem_cons_of_mem x h1)

lemma maxByScoreLast_mem {γ σ : Type} {l : List (Candidate γ σ)} {c : Candidate γ σ}
    (h : maxByScoreLast l = some c) : c ∈ l := by
  rcases maxByScoreLast_foldl_mem l none c h with h1 | h1
  · exact absurd h1 (by simp)
  · exact h1

lemma maxByScoreLast_foldl_isSome {γ σ : Type} :
    ∀ (l : List (Candidate γ σ)) (acc : Option (Candidate γ σ)), acc.isSome →
      (l.foldl
        (fun acc c =>
          match acc with
          | none => some c
          | some m => if m.score ≤ c.score then some c else some m)
        acc).isSome := by
  intro l
  induction l with
  | nil => intro acc h; exact h
  | cons x xs ih =>
      intro acc h
      rw [List.foldl_cons]
      cases acc with
      | none => exact absurd h (by simp)
      | some m =>
          by_cases hc : m.score ≤ x.score
          · exact ih _ (by simp [hc])
          · exact ih _ (by simp [hc])

lemma maxByScoreLast_eq_none_iff {γ σ : Type} (l : List (Candidate γ σ)) :
    maxByScoreLast l = none ↔ l = [] := by
  constructor
  · intro h
    cases l with
    | nil => rfl
    | cons x xs =>
        exfalso
        have h2 := maxByScoreLast_foldl_isSome xs (some x) (by simp)
        unfold maxByScoreLast at h
        rw [List.foldl_cons] at h
        rw [h] at h2
        exact absurd h2 (by simp)
  · intro h; subst h; rfl

lemma bestImproving_mem {γ σ : Type} {curr : Nat} {l : List (Candidate γ σ)}
    {c : Candidate γ σ} (h : bestImproving curr l = some c) :
    c ∈ l ∧ curr < c.score := by
  have h1 := maxByScoreLast_mem h
  rw [List.mem_filter] at h1
  exact ⟨h1.1, by simpa using h1.2⟩

lemma bestImproving_eq_none_iff {γ σ : Type} (curr : Nat) (l : List (Candidate γ σ)) :
    bestImproving curr l = none ↔ ∀ c ∈ l, c.score ≤ curr := by
  unfold bestImproving
  rw [maxByScoreLast_eq_none_iff, List.filter_eq_nil_iff]
  constructor
  · intro h c hc
    have := h c hc
    simpa using this
  · intro h c hc
    simpa using h c hc

lemma roundStep_commit {γ σ : Type} {s : LoopState γ σ} {batch : List (Candidate γ σ)}
    {c : Candidate γ σ} (h : bestImproving s.curr batch = some c) :
    roundStep s batch =
      { canvas := c.overlayEffect s.canvas
        curr := c.score
        success := s.success + 1
        failure := s.failure
        consec := 0
        placed := s.placed ++ [c.settings] } := by
  unfold roundStep
  rw [h]

lemma roundStep_fail {γ σ : Type} {s : LoopState γ σ} {batch : List (Candidate γ σ)}
    (h : bestImproving s.curr batch = none) :
    roundStep s batch = { s with failure := s.failure + 1, consec := s.consec + 1 } := by
  unfold roundStep
  rw [h]

lemma roundStep_curr_le {γ σ : Type} (s : LoopState γ σ) (batch : List (Candidate γ σ)) :
    s.curr ≤ (roundStep s batch).curr := by
  cases h : bestImproving s.curr batch with
  | none => rw [roundStep_fail h]
  | some c =>
      rw [roundStep_commit h]
      exact Nat.le_of_lt (bestImproving_mem h).2

lemma runLoop_curr_le {γ σ : Type} (cfg : LoopConfig) (env : Nat → List (Candidate γ σ)) :
    ∀ (fuel : Nat) (s : LoopState γ σ), s.curr ≤ (runLoop cfg env fuel s).curr := by
  intro fuel
  induction fuel with
  | zero => intro s; exact Nat.le_refl _
  | succ n ih =>
      intro s
      unfold runLoop
      by_cases h : loopGuard cfg s = true
      · rw [if_pos h]
        exact Nat.le_trans (roundStep_curr_le s _) (ih _)
      · rw [if_neg h]

lemma loopGuard_iff {γ σ : Type} (cfg : LoopConfig) (s : LoopState γ σ) :
    loopGuard cfg s = true ↔
      ((currScoreQ s < cfg.targetScore ∨ s.success < cfg.targetShapes) ∧
        s.consec < cfg.failmax) := by
  simp [loopGuard]

lemma runLoop_guard_false {γ σ : Type} {cfg : LoopConfig} {env : Nat → List (Candidate γ σ)}
    {s : LoopState γ σ} (h : loopGuard cfg s = false) (fuel : Nat) :
    runLoop cfg env fuel s = s := by
  cases fuel with
  | zero => rfl
  | succ n => unfold runLoop; rw [h]; simp

lemma roundStep_measure_lt {γ σ : Type} {cfg : LoopConfig} {s : LoopState γ σ}
    {batch : List (Candidate γ σ)} (hguard : loopGuard cfg s = true)
    (hcurr : s.curr ≤ 1000000) (hbatch : ∀ c ∈ batch, c.score ≤ 1000000) :
    loopMeasure cfg (roundStep s batch) < loopMeasure cfg s ∧
      (roundStep s batch).curr ≤ 1000000 := by
  have hcons : s.consec < cfg.failmax := ((loopGuard_iff cfg s).1 hguard).2
  cases h : bestImproving s.curr batch with
  | none =>
      rw [roundStep_fail h]
      unfold loopMeasure
      constructor
      · simp only
        omega
      · exact hcurr
  | some c =>
      obtain ⟨hmem, hgt⟩ := bestImproving_mem h
      have hscore := hbatch c hmem
      rw [roundStep_commit h]
      unfold loopMeasure
      constructor
      · simp only
        have h1 : (1000001 - c.score) * cfg.failmax ≤ (1000000 - s.curr) * cfg.failmax :=
          Nat.mul_le_mul_right _ (by omega)
        have h2 : (1000001 - s.curr) * cfg.failmax
            = (1000000 - s.curr) * cfg.failmax + cfg.failmax := by
          rw [show 1000001 - s.curr = (1000000 - s.curr) + 1 from by omega,
            Nat.add_mul, Nat.one_mul]
        omega
      · exact hscore

/-- C3: for every generated candidate with pre-rotation edge `s ≥ 1`, the
stamp edge `size_rotated s` equals the ceiling of `sqrt 2 · s`, incremented
by one when needed so that it has the same parity as `s`; consequently
`size_rotated s ≥ s`. -/
theorem stamp_edge_spec (s : Nat) (hs : 1 ≤ s) :
    size_rotated s =
      (if ⌈Real.sqrt 2 * (s : ℝ)⌉₊ % 2 ≠ s % 2 then ⌈Real.sqrt 2 * (s : ℝ)⌉₊ + 1
       else ⌈Real.sqrt 2 * (s : ℝ)⌉₊) ∧
    size_rotated s % 2 = s % 2 ∧ s ≤ size_rotated s := by
  refine ⟨?_, size_rotated_parity s, size_rotated_ge s⟩
  unfold size_rotated
  rw [size_rotated_pre_eq_ceil hs]

theorem stamp_edge_spec_witness :
    1 ≤ 3 ∧
      (size_rotated 3 =
        (if ⌈Real.sqrt 2 * ((3 : Nat) : ℝ)⌉₊ % 2 ≠ 3 % 2 then
          ⌈Real.sqrt 2 * ((3 : Nat) : ℝ)⌉₊ + 1
         else ⌈Real.sqrt 2 * ((3 : Nat) : ℝ)⌉₊) ∧
      size_rotated 3 % 2 = 3 % 2 ∧ 3 ≤ size_rotated 3) :=
  ⟨by decide, stamp_edge_spec 3 (by decide)⟩

/-- C7: for every generated candidate (whose clamped size is at least 1), the
centering offset never underflows (`floor(size/2) ≤ floor(size_rotated/2)`)
and every alpha-copy access at `(x + offset, y + offset)` with `x, y < size`
lies inside the `size_rotated × size_rotated` buffer. -/
theorem paste_copy_in_bounds (d0 d1 d2 d3 x y : Nat)
    (hx : x < rand_size d0 d1 d2 d3) (hy : y < rand_size d0 d1 d2 d3) :
    rand_size d0 d1 d2 d3 / 2 ≤ size_rotated (rand_size d0 d1 d2 d3) / 2 ∧
    x + paste_offset (rand_size d0 d1 d2 d3) < size_rotated (rand_size d0 d1 d2 d3) ∧
    y + paste_offset (rand_size d0 d1 d2 d3) < size_rotated (rand_size d0 d1 d2 d3) := by
  have h1 : 1 ≤ rand_size d0 d1 d2 d3 := one_le_rand_size d0 d1 d2 d3
  have h2 : rand_size d0 d1 d2 d3 ≤ size_rotated (rand_size d0 d1 d2 d3) :=
    size_rotated_ge _
  have h3 : size_rotated (rand_size d0 d1 d2 d3) % 2 = rand_size d0 d1 d2 d3 % 2 :=
    size_rotated_parity _
  unfold paste_offset
  omega

theorem paste_copy_in_bounds_witness :
    0 < rand_size 0 0 0 0 ∧
      (rand_size 0 0 0 0 / 2 ≤ size_rotated (rand_size 0 0 0 0) / 2 ∧
      0 + paste_offset (rand_size 0 0 0 0) < size_rotated (rand_size 0 0 0 0) ∧
      0 + paste_offset (rand_size 0 0 0 0) < size_rotated (rand_size 0 0 0 0)) :=
  ⟨by decide, paste_copy_in_bounds 0 0 0 0 0 0 (by decide) (by decide)⟩

/-- C4: given a validated match percentage (in `[0,100]` when present), the
startup check exits exactly when the percentage is absent or zero and the
target shape count is zero; otherwise the program proceeds past the check. -/
theorem startup_guard_spec (matchscore : Option ℚ) (shapes : Nat)
    (hvalid : ∀ q ∈ matchscore, 0 ≤ q ∧ q ≤ 100) :
    startup_exits matchscore shapes = true ↔
      ((matchscore = none ∨ matchscore = some 0) ∧ shapes = 0) := by
  unfold startup_exits target_score_of
  cases matchscore with
  | none => simp
  | some q =>
      have hq := hvalid q rfl
      rw [Bool.and_eq_true, decide_eq_true_eq, decide_eq_true_eq]
      constructor
      · rintro ⟨h1, h2⟩
        have hq0 : q ≤ 0 := by
          rw [Option.getD_some] at h1
          linarith
        have hq0 : q = 0 := le_antisymm hq0 hq.1
        exact ⟨Or.inr (by rw [hq0]), by omega⟩
      · rintro ⟨h1, h2⟩
        rcases h1 with h1 | h1
        · exact absurd h1 (by simp)
        · rw [Option.some_inj] at h1
          rw [Option.getD_some, h1]
          norm_num
          omega

theorem startup_guard_spec_witness :
    (∀ q ∈ (some (50 : ℚ) : Option ℚ), 0 ≤ q ∧ q ≤ 100) ∧
      (startup_exits (some (50 : ℚ)) 0 = true ↔
        (((some (50 : ℚ) : Option ℚ) = none ∨ (some (50 : ℚ) : Option ℚ) = some 0) ∧
          (0 : Nat) = 0)) := by
  have hv : ∀ q ∈ (some (50 : ℚ) : Option ℚ), 0 ≤ q ∧ q ≤ 100 := by
    intro q hq
    rw [Option.mem_def, Option.some_inj] at hq
    rw [← hq]
    norm_num
  exact ⟨hv, startup_guard_spec (some (50 : ℚ)) 0 hv⟩

/-- C6 counterexample: the initial score (line 171) and the candidate scores
(line 186) are NOT truncated to the same decimal precision — the two
truncations disagree on the raw similarity 0.123456. -/
theorem trunc_precision_mismatch :
    trunc_initial (123456 / 1000000) ≠ trunc_candidate (123456 / 1000000) := by
  norm_num [trunc_initial, trunc_candidate]

/-- C6 amended: both scores entering the strict-improvement comparison are
floor-truncations of the raw similarity, but to two different fixed
precisions — the initial score to 4 decimal places, every candidate score to
6 decimal places; every initial score is nevertheless exactly representable
at the candidate precision (the comparison grid of candidates refines the
initial grid). -/
theorem trunc_scores_spec (x : ℚ) :
    trunc_initial x ≤ x ∧ x - trunc_initial x < 1 / 10000 ∧
    trunc_candidate x ≤ x ∧ x - trunc_candidate x < 1 / 1000000 ∧
    trunc_candidate (trunc_initial x) = trunc_initial x := by
  refine ⟨?_, ?_, ?_, ?_, ?_⟩
  · unfold trunc_initial
    rw [div_le_iff₀ (by norm_num : (0 : ℚ) < 10000)]
    exact Int.floor_le _
  · unfold trunc_initial
    have h := Int.sub_one_lt_floor (x * 10000)
    have h10 : (0 : ℚ) < 10000 := by norm_num
    rw [sub_lt_iff_lt_add, div_add_div_same, lt_div_iff₀ h10]
    linarith
  · unfold trunc_candidate
    rw [div_le_iff₀ (by norm_num : (0 : ℚ) < 1000000)]
    exact Int.floor_le _
  · unfold trunc_candidate
    have h := Int.sub_one_lt_floor (x * 1000000)
    have h10 : (0 : ℚ) < 1000000 := by norm_num
    rw [sub_lt_iff_lt_add, div_add_div_same, lt_div_iff₀ h10]
    linarith
  · unfold trunc_candidate trunc_initial
    have h1 : (⌊x * 10000⌋ : ℚ) / 10000 * 1000000 = ((⌊x * 10000⌋ * 100 : ℤ) : ℚ) := by
      push_cast
      ring
    rw [h1, Int.floor_intCast]
    push_cast
    ring

/-- C8 counterexample: for an 800×600 input compared at width 384, the
emitted document is declared 384×288, not 800×600 — the claim that the
declared dimensions equal the original (pre-downsampling) dimensions fails. -/
theorem svg_dims_not_original :
    svg_declared_dims 800 600 384 ≠ (800, 600) := by
  norm_num [svg_declared_dims, comparison_dims]

/-- C8 amended: the emitted document is sized to the downsampled comparison
image — width `cmpwidth` and height `floor(cmpwidth·h/w)`; it coincides with
the original dimensions exactly in the no-downsampling case `cmpwidth = w`. -/
theorem svg_dims_comparison (w h c : Nat) (hw : 0 < w) :
    svg_declared_dims w h c = (c, (⌊(c : ℚ) * (h : ℚ) / (w : ℚ)⌋).toNat) ∧
    (c = w → svg_declared_dims w h c = (w, h)) := by
  have hwQ : ((w : ℚ)) ≠ 0 := by
    simp only [ne_eq, Nat.cast_eq_zero]
    omega
  constructor
  · unfold svg_declared_dims comparison_dims
    rw [div_mul_eq_mul_div]
  · intro hcw
    subst hcw
    unfold svg_declared_dims comparison_dims
    rw [div_self hwQ, one_mul, Int.floor_natCast]
    simp

theorem svg_dims_comparison_witness :
    0 < 800 ∧
      (svg_declared_dims 800 600 800 =
        (800, (⌊((800 : Nat) : ℚ) * ((600 : Nat) : ℚ) / ((800 : Nat) : ℚ)⌋).toNat) ∧
      (800 = 800 → svg_declared_dims 800 600 800 = (800, 600))) :=
  ⟨by decide, svg_dims_comparison 800 600 800 (by decide)⟩

/-- C9 counterexample: the rotation draw is NOT confined to the half-open
interval `[0, 2π)` — at the 32-bit draw `u32::MAX` the sampled angle equals
`2π` exactly. -/
theorem rand_rot_attains_two_pi :
    ¬ (rand_rot 4294967295 < 2 * Real.pi) := by
  unfold rand_rot
  push_cast
  rw [div_self (by norm_num : (4294967295 : ℝ) ≠ 0), one_mul]
  exact lt_irrefl _

/-- C9 amended: every sampled rotation angle lies in the closed interval
`[0, 2π]`: it is `u / (2³² − 1) · 2π` for the 32-bit draw `u`, is strictly
below `2π` whenever `u < 2³² − 1`, and attains `2π` at `u = 2³² − 1`. -/
theorem rand_rot_range (u : Nat) (hu : u ≤ 4294967295) :
    0 ≤ rand_rot u ∧ rand_rot u ≤ 2 * Real.pi ∧
      (u < 4294967295 → rand_rot u < 2 * Real.pi) := by
  have hpi : (0 : ℝ) < 2 * Real.pi := by positivity
  have hden : (0 : ℝ) < 4294967295 := by norm_num
  refine ⟨?_, ?_, ?_⟩
  · unfold rand_rot
    positivity
  · unfold rand_rot
    have h1 : (u : ℝ) / 4294967295 ≤ 1 := by
      rw [div_le_one hden]
      exact_mod_cast hu
    exact mul_le_of_le_one_left (le_of_lt hpi) h1
  · intro hlt
    unfold rand_rot
    have h1 : (u : ℝ) / 4294967295 < 1 := by
      rw [div_lt_one hden]
      exact_mod_cast hlt
    exact mul_lt_of_lt_one_left hpi h1

theorem rand_rot_range_witness :
    (0 : Nat) ≤ 4294967295 ∧
      (0 ≤ rand_rot 0 ∧ rand_rot 0 ≤ 2 * Real.pi ∧
        ((0 : Nat) < 4294967295 → rand_rot 0 < 2 * Real.pi)) :=
  ⟨Nat.zero_le _, rand_rot_range 0 (Nat.zero_le _)⟩

/-- C1: in every round that commits a candidate, the committed quantized
score strictly exceeds the score held before the round (a candidate survives
the filter only when it beats the current score), and across the whole run
the current score never decreases. -/
theorem search_score_monotone {γ σ : Type} (cfg : LoopConfig)
    (s : LoopState γ σ) (batch : List (Candidate γ σ)) :
    ((bestImproving s.curr batch).isSome = true → s.curr < (roundStep s batch).curr) ∧
    s.curr ≤ (roundStep s batch).curr ∧
    ∀ (fuel : Nat) (env : Nat → List (Candidate γ σ)),
      s.curr ≤ (runLoop cfg env fuel s).curr := by
  refine ⟨?_, roundStep_curr_le s batch, fun fuel env => runLoop_curr_le cfg env fuel s⟩
  intro h
  rw [Option.isSome_iff_exists] at h
  obtain ⟨c, hc⟩ := h
  rw [roundStep_commit hc]
  exact (bestImproving_mem hc).2

theorem search_score_monotone_witness :
    (bestImproving (3 : Nat) [Candidate.mk (γ := Nat) (σ := Nat) id 5 7]).isSome = true ∧
      (LoopState.mk (γ := Nat) (σ := Nat) 0 3 0 0 0 []).curr <
        (roundStep (LoopState.mk (γ := Nat) (σ := Nat) 0 3 0 0 0 [])
          [Candidate.mk id 5 7]).curr :=
  ⟨rfl,
    (search_score_monotone (LoopConfig.mk 1 500 100)
      (LoopState.mk 0 3 0 0 0 []) [Candidate.mk id 5 7]).1 rfl⟩

/-- C2: the loop guard is exactly
`(curr_score < target_score or success < target_shapes) and consec < failmax`;
once the consecutive-failure count reaches `failmax` the loop halts at once
even if the score and shape goals are unmet; a non-positive target score and
a zero target shape count each make their disjunct vacuous (they impose no
further requirement). -/
theorem loop_guard_spec {γ σ : Type} (cfg : LoopConfig) (s : LoopState γ σ)
    (env : Nat → List (Candidate γ σ)) (fuel : Nat) :
    (loopGuard cfg s = true ↔
      ((currScoreQ s < cfg.targetScore ∨ s.success < cfg.targetShapes) ∧
        s.consec < cfg.failmax)) ∧
    (cfg.failmax ≤ s.consec → runLoop cfg env fuel s = s) ∧
    (cfg.targetScore ≤ 0 → ¬ currScoreQ s < cfg.targetScore) ∧
    (cfg.targetShapes = 0 → ¬ s.success < cfg.targetShapes) := by
  refine ⟨loopGuard_iff cfg s, ?_, ?_, ?_⟩
  · intro h
    apply runLoop_guard_false _ fuel
    have hfail : ¬ s.consec < cfg.failmax := by omega
    simp [loopGuard, hfail]
  · intro h hlt
    have h0 : 0 ≤ currScoreQ s := by
      unfold currScoreQ
      positivity
    linarith
  · intro h
    rw [h]
    exact Nat.not_lt_zero _

theorem loop_guard_spec_witness :
    (runLoop (LoopConfig.mk 0 0 0) (fun _ => ([] : List (Candidate Nat Nat))) 7
        (LoopState.mk 0 0 0 0 0 []) = LoopState.mk 0 0 0 0 0 []) ∧
      ¬ currScoreQ (LoopState.mk (γ := Nat) (σ := Nat) 0 0 0 0 0 []) <
        (LoopConfig.mk 0 0 0).targetScore ∧
      ¬ (LoopState.mk (γ := Nat) (σ := Nat) 0 0 0 0 0 []).success <
        (LoopConfig.mk 0 0 0).targetShapes := by
  have h := loop_guard_spec (LoopConfig.mk 0 0 0)
    (LoopState.mk (γ := Nat) (σ := Nat) 0 0 0 0 0 [])
    (fun _ => ([] : List (Candidate Nat Nat))) 7
  exact ⟨h.2.1 (Nat.le_refl 0), h.2.2.1 (le_refl (0 : ℚ)), h.2.2.2 rfl⟩

/-- C5: in a round where no candidate beats the current score, the failure
and consecutive-failure counters each grow by exactly one, and the canvas,
the current score, the placement history and the success counter are all
left unchanged. -/
theorem failed_round_frame {γ σ : Type} (s : LoopState γ σ)
    (batch : List (Candidate γ σ)) (h : ∀ c ∈ batch, c.score ≤ s.curr) :
    (roundStep s batch).canvas = s.canvas ∧
    (roundStep s batch).curr = s.curr ∧
    (roundStep s batch).placed = s.placed ∧
    (roundStep s batch).success = s.success ∧
    (roundStep s batch).failure = s.failure + 1 ∧
    (roundStep s batch).consec = s.consec + 1 := by
  rw [roundStep_fail ((bestImproving_eq_none_iff _ _).2 h)]
  exact ⟨rfl, rfl, rfl, rfl, rfl, rfl⟩

theorem failed_round_frame_witness :
    (∀ c ∈ [Candidate.mk (γ := Nat) (σ := Nat) id 2 8, Candidate.mk id 5 6],
      c.score ≤ (LoopState.mk (γ := Nat) (σ := Nat) 9 5 1 2 3 [4]).curr) ∧
      ((roundStep (LoopState.mk (γ := Nat) (σ := Nat) 9 5 1 2 3 [4])
          [Candidate.mk id 2 8, Candidate.mk id 5 6]).canvas = 9 ∧
        (roundStep (LoopState.mk (γ := Nat) (σ := Nat) 9 5 1 2 3 [4])
          [Candidate.mk id 2 8, Candidate.mk id 5 6]).curr = 5 ∧
        (roundStep (LoopState.mk (γ := Nat) (σ := Nat) 9 5 1 2 3 [4])
          [Candidate.mk id 2 8, Candidate.mk id 5 6]).placed = [4] ∧
        (roundStep (LoopState.mk (γ := Nat) (σ := Nat) 9 5 1 2 3 [4])
          [Candidate.mk id 2 8, Candidate.mk id 5 6]).success = 1 ∧
        (roundStep (LoopState.mk (γ := Nat) (σ := Nat) 9 5 1 2 3 [4])
          [Candidate.mk id 2 8, Candidate.mk id 5 6]).failure = 2 + 1 ∧
        (roundStep (LoopState.mk (γ := Nat) (σ := Nat) 9 5 1 2 3 [4])
          [Candidate.mk id 2 8, Candidate.mk id 5 6]).consec = 3 + 1) := by
  have hb : ∀ c ∈ [Candidate.mk (γ := Nat) (σ := Nat) id 2 8, Candidate.mk id 5 6],
      c.score ≤ (LoopState.mk (γ := Nat) (σ := Nat) 9 5 1 2 3 [4]).curr := by
    decide
  exact ⟨hb, failed_round_frame (LoopState.mk 9 5 1 2 3 [4])
    [Candidate.mk id 2 8, Candidate.mk id 5 6] hb⟩

/-- C10: the search loop always performs only finitely many rounds.  Each
committed round raises the quantized score (an integer number of millionths,
bounded by `10^6` since similarities lie in `[0,1]`) by at least one
quantum, and each failed round raises the consecutive-failure counter toward
`failmax`, so `loopMeasure` strictly decreases each round; with fuel at
least `loopMeasure` the guard is false at exit — the loop terminates even
when the score and shape goals are unreachable. -/
theorem search_loop_terminates {γ σ : Type} (cfg : LoopConfig)
    (env : Nat → List (Candidate γ σ)) :
    ∀ (fuel : Nat) (s : LoopState γ σ), s.curr ≤ 1000000 →
      (∀ k, ∀ c ∈ env k, c.score ≤ 1000000) →
      loopMeasure cfg s ≤ fuel →
      loopGuard cfg (runLoop cfg env fuel s) = false := by
  intro fuel
  induction fuel with
  | zero =>
      intro s hcurr henv hm
      show loopGuard cfg s = false
      by_contra hg
      rw [Bool.not_eq_false] at hg
      have hcons := ((loopGuard_iff cfg s).1 hg).2
      unfold loopMeasure at hm
      omega
  | succ n ih =>
      intro s hcurr henv hm
      unfold runLoop
      by_cases hg : loopGuard cfg s = true
      · rw [if_pos hg]
        obtain ⟨hlt, hcurr2⟩ :=
          roundStep_measure_lt hg hcurr (henv (s.success + s.failure))
        exact ih _ hcurr2 henv (by omega)
      · rw [if_neg hg]
        rw [Bool.not_eq_true] at hg
        exact hg

theorem search_loop_terminates_witness :
    (LoopState.mk (γ := Nat) (σ := Nat) 0 999999 0 0 0 []).curr ≤ 1000000 ∧
      (∀ k : Nat, ∀ c ∈ (fun _ : Nat => ([] : List (Candidate Nat Nat))) k, c.score ≤ 1000000) ∧
      loopMeasure (LoopConfig.mk 1 1 1)
        (LoopState.mk (γ := Nat) (σ := Nat) 0 999999 0 0 0 []) ≤ 3 ∧
      loopGuard (LoopConfig.mk 1 1 1)
        (runLoop (LoopConfig.mk 1 1 1) (fun _ => ([] : List (Candidate Nat Nat))) 3
          (LoopState.mk 0 999999 0 0 0 [])) = false := by
  refine ⟨by decide, fun k c hc => absurd hc (by simp), by decide, ?_⟩
  exact search_loop_terminates (LoopConfig.mk 1 1 1)
    (fun _ => ([] : List (Candidate Nat Nat))) 3 (LoopState.mk 0 999999 0 0 0 [])
    (by decide) (fun k c hc => absurd hc (by simp)) (by decide)
